/-
Verification of the catalog-api record-transformation core.

This file gives a shallow embedding, in Lean 4, of the parts of the
catalog-api repository that the checked claims concern:

* `blacklight/marcfieldset/fieldset.py` - the `Field` / `Fieldset` data
  model and its filtering / mutation / sorting operations;
* `blacklight/marcfieldset/filters.py` - the predicate functions;
* `blacklight/sierrabibstractor.py` - the bib extractors;
* `blacklight/field_converters.py` - the person-author converters;
* `blacklight/exporters.py` - `BaseNonSolrmarcBibsToSolr.export_records`;
* `export/exporter.py` - `Exporter.compile_vals` and
  `CompoundMixin.generate_record_sets`.

Modelling conventions:

* Python dicts with a fixed shape become Lean structures; an optional
  dict key becomes an `Option` member, `none` meaning the key is absent.
* Subfield dicts are mutable and shared by reference across filtered
  views (a documented, intentional behavior of the source).  They are
  therefore modelled as heap records: a `Store` is a list of `Subfield`
  values, a field's `subfields` element is a list of addresses (indices)
  into the store, and mutation is an update of the store.  Field-level
  attributes are never mutated by any operation treated here, so `Field`
  values themselves are immutable Lean values.
* Code that can raise becomes a function into `Except PyErr _`.
* Machine-level details that are external to the repository (the `re`
  regex engine, the Solr client, the ORM) are abstracted as parameters.
-/

import Mathlib

namespace CatalogApi

/-- Python exception kinds that the embedded code can raise. -/
inductive PyErr where
  | keyError
  | nameError
  | valueError
  | indexError
  deriving DecidableEq, Repr

/-! ## The marcfieldset data model (`marcfieldset/fieldset.py`)

A `Subfield` models a subfield dict `{'tag': ..., 'data': ...}`.
Subfield dicts are heap-allocated and shared by reference, so fields
hold `Addr`s (store indices) rather than `Subfield` values. -/

/-- A subfield dict `{'tag': 'a', 'data': 'Stuff'}`. -/
structure Subfield where
  tag : String
  data : String
  deriving DecidableEq, Repr

/-- A heap address of a subfield dict. -/
abbrev Addr := Nat

/-- The heap of subfield dicts; addresses are list indices. -/
abbrev Store := List Subfield

/-- Read the subfield dict at address `a` (out-of-range reads return a
dummy; well-formed data never reads out of range). -/
def readSub (σ : Store) (a : Addr) : Subfield :=
  σ.getD a ⟨"", ""⟩

/-- A MARC-style field dict, per the structure documented in
`marcfieldset/fieldset.py`: `tag`, optional `data` (present on control
fields and the leader, absent otherwise), `indicators`, `subfields`
(references to heap-allocated subfield dicts), `occurrence`.
`data = none` models the absence of the `'data'` key. -/
structure Field where
  tag : String
  data : Option String
  indicators : List (Option Char)
  subfields : List Addr
  occurrence : Nat
  deriving DecidableEq, Repr

/-- A Fieldset is just a list of fields (`Fieldset(list)` in source). -/
abbrev Fieldset := List Field

/-! ### Field methods -/

/-- `Field.subfields_where`: shallow copy of the field whose `subfields`
list keeps only the matching subfield references (`fieldset.py`
lines 61-78).  The test reads the current contents of each referenced
subfield dict, so it takes the store. -/
def Field.subfields_where (σ : Store) (f : Field) (test : Subfield → Bool) : Field :=
  { f with subfields := f.subfields.filter (fun a => test (readSub σ a)) }

/-- `Field.subfields_where_not` (`fieldset.py` lines 80-97). -/
def Field.subfields_where_not (σ : Store) (f : Field) (test : Subfield → Bool) : Field :=
  { f with subfields := f.subfields.filter (fun a => !test (readSub σ a)) }

/-- One step of `replace_subfield_data`'s loop:
`sub['data'] = replace(sub['data'])` at address `a`. -/
def replaceStep (repl : String → String) (σ : Store) (a : Addr) : Store :=
  σ.set a ⟨(readSub σ a).tag, repl ((readSub σ a).data)⟩

/-- Run the replace loop over a list of subfield addresses in order. -/
def replaceAddrs (repl : String → String) (σ : Store) (addrs : List Addr) : Store :=
  addrs.foldl (replaceStep repl) σ

/-- `Field.replace_subfield_data` (`fieldset.py` lines 99-123): mutates
each referenced subfield dict's `data` in place through `replace` and
returns `self` (the very same field) together with the updated store. -/
def Field.replace_subfield_data (σ : Store) (f : Field) (repl : String → String) :
    Field × Store :=
  (f, replaceAddrs repl σ f.subfields)

/-- `Field.get_subfields_as_string` (`fieldset.py` lines 147-155). -/
def Field.get_subfields_as_string (σ : Store) (f : Field) (delimiter : String) : String :=
  String.intercalate delimiter (f.subfields.map (fun a => (readSub σ a).data))

/-! ### Fieldset methods -/

/-- `Fieldset.fields_where` (`fieldset.py` lines 196-210):
`[f for f in self if test(f, ...)]`. -/
def Fieldset.fields_where (fs : Fieldset) (test : Field → Bool) : Fieldset :=
  fs.filter test

/-- `Fieldset.fields_where_not` (`fieldset.py` lines 212-227):
`[f for f in self if not test(f, ...)]`. -/
def Fieldset.fields_where_not (fs : Fieldset) (test : Field → Bool) : Fieldset :=
  fs.filter (fun f => !test f)

/-- `Fieldset.subfields_where` (`fieldset.py` lines 229-246): maps
`Field.subfields_where` over the fieldset; fields with zero matching
subfields remain, with an empty `subfields` list. -/
def Fieldset.subfields_where (σ : Store) (fs : Fieldset) (test : Subfield → Bool) : Fieldset :=
  fs.map (fun f => f.subfields_where σ test)

/-- `Fieldset.replace_subfield_data` (`fieldset.py` lines 267-276):
calls `Field.replace_subfield_data` on each field in order, collecting
the returned fields into a new list; returns that list and the final
store. -/
def Fieldset.replace_subfield_data (σ : Store) (fs : Fieldset) (repl : String → String) :
    Fieldset × Store :=
  fs.foldl
    (fun acc f =>
      let r := f.replace_subfield_data acc.2 repl
      (acc.1 ++ [r.1], r.2))
    ([], σ)

/-- All subfield addresses reachable from a fieldset, in iteration
order. -/
def allAddrs (fs : Fieldset) : List Addr :=
  fs.flatMap Field.subfields

/-! ### Filters (`marcfieldset/filters.py`)

The source's filters are duck-typed over field dicts and subfield
dicts; the embedding provides one monomorphic instance per shape. -/

/-- `filters.tag_equals` applied to a subfield dict. -/
def tag_equals (item : Subfield) (tag : String) : Bool :=
  item.tag == tag

/-- `filters.tag_equals` applied to a field dict. -/
def field_tag_equals (item : Field) (tag : String) : Bool :=
  item.tag == tag

/-- `filters.data_equals` applied to a field dict: `item['data']`
raises `KeyError` when the field has no `data` key. -/
def field_data_equals (item : Field) (data : String) : Except PyErr Bool :=
  match item.data with
  | none => .error .keyError
  | some d => .ok (d == data)

/-- `filters.data_matches` applied to a field dict.  The `re.search`
engine is external to the repository and passed in as `search`;
`item['data']` raises `KeyError` when the field has no `data` key. -/
def field_data_matches (search : String → String → Bool) (item : Field) (regex : String) :
    Except PyErr Bool :=
  match item.data with
  | none => .error .keyError
  | some d => .ok (search regex d)

/-- A Fieldset as a Python object: `oid` is the object's identity (the
`id()` of the list object), `fields` its contents.  Operations that
execute `type(self)(fields)` allocate a fresh list object; the fresh
identity is passed in as an argument, the runtime guaranteeing it
differs from every live object identity. -/
structure FieldsetObj where
  oid : Nat
  fields : Fieldset
  deriving DecidableEq, Repr

/-- Object-level `Fieldset.replace_subfield_data`: the source runs
`fields = [f.replace_subfield_data(replace) for f in self]` and returns
`type(self)(fields)` - a newly allocated Fieldset object. -/
def FieldsetObj.replace_subfield_data (σ : Store) (fso : FieldsetObj)
    (repl : String → String) (freshId : Nat) : FieldsetObj × Store :=
  let r := Fieldset.replace_subfield_data σ fso.fields repl
  (⟨freshId, r.1⟩, r.2)

/-! ### Store-update lemmas -/

theorem length_replaceStep (r : String → String) (σ : Store) (a : Addr) :
    (replaceStep r σ a).length = σ.length := by
  simp [replaceStep]

theorem length_replaceAddrs (r : String → String) (L : List Addr) (σ : Store) :
    (replaceAddrs r σ L).length = σ.length := by
  induction L generalizing σ with
  | nil => rfl
  | cons a L ih =>
    have hstep : replaceAddrs r σ (a :: L) = replaceAddrs r (replaceStep r σ a) L := rfl
    rw [hstep, ih, length_replaceStep]

theorem readSub_set_self (σ : Store) (a : Addr) (v : Subfield) (h : a < σ.length) :
    readSub (σ.set a v) a = v := by
  simp [readSub, List.getD, List.getElem?_set_self, h]

theorem readSub_set_ne (σ : Store) (a b : Addr) (v : Subfield) (h : b ≠ a) :
    readSub (σ.set a v) b = readSub σ b := by
  simp [readSub, List.getD, List.getElem?_set_ne (Ne.symm h)]

/-- Per-address characterization of the replace loop: over a duplicate-
free, in-range address list, each listed address gets the transform
applied exactly once to its pre-state data, and every other address is
untouched. -/
theorem replaceAddrs_spec (r : String → String) (L : List Addr) (σ : Store)
    (hnodup : L.Nodup) (hrange : ∀ a ∈ L, a < σ.length) (b : Addr) :
    readSub (replaceAddrs r σ L) b =
      if b ∈ L then ⟨(readSub σ b).tag, r (readSub σ b).data⟩ else readSub σ b := by
  induction L generalizing σ with
  | nil => simp [replaceAddrs]
  | cons a L ih =>
    have hstep : replaceAddrs r σ (a :: L) = replaceAddrs r (replaceStep r σ a) L := rfl
    have ha : a < σ.length := hrange a (List.mem_cons_self a L)
    have hnodup' : L.Nodup := hnodup.of_cons
    have hanotin : a ∉ L := by
      intro hmem; exact (List.nodup_cons.mp hnodup).1 hmem
    have hrange' : ∀ x ∈ L, x < (replaceStep r σ a).length := by
      intro x hx; rw [length_replaceStep]; exact hrange x (List.mem_cons_of_mem a hx)
    rw [hstep, ih (replaceStep r σ a) hnodup' hrange']
    by_cases hba : b = a
    · subst hba
      simp [hanotin, replaceStep, readSub_set_self σ b _ ha]
    · have hread : readSub (replaceStep r σ a) b = readSub σ b := by
        simp [replaceStep, readSub_set_ne σ a b _ hba]
      by_cases hbL : b ∈ L
      · simp [hbL, hread, hba]
      · have : b ∉ a :: L := by
          intro hmem
          rcases List.mem_cons.mp hmem with h | h
          · exact hba h
          · exact hbL h
        simp [hbL, hread, this]

theorem replaceAddrs_append (r : String → String) (L1 L2 : List Addr) (σ : Store) :
    replaceAddrs r (replaceAddrs r σ L1) L2 = replaceAddrs r σ (L1 ++ L2) := by
  simp [replaceAddrs, List.foldl_append]

/-- The fieldset-level replace fold, fully characterized: the returned
list is the accumulator followed by the input fields themselves, and
the final store is the flat replace loop over all subfield addresses. -/
theorem fieldset_replace_foldl (repl : String → String) (fs : Fieldset)
    (init : Fieldset) (σ : Store) :
    fs.foldl
      (fun acc f =>
        let r := Field.replace_subfield_data acc.2 f repl
        (acc.1 ++ [r.1], r.2))
      (init, σ) = (init ++ fs, replaceAddrs repl σ (allAddrs fs)) := by
  induction fs generalizing init σ with
  | nil => simp [allAddrs, replaceAddrs]
  | cons f fs ih =>
    have hstep :
        (f :: fs).foldl
          (fun acc f =>
            let r := Field.replace_subfield_data acc.2 f repl
            (acc.1 ++ [r.1], r.2))
          (init, σ) =
        fs.foldl
          (fun acc f =>
            let r := Field.replace_subfield_data acc.2 f repl
            (acc.1 ++ [r.1], r.2))
          (init ++ [f], replaceAddrs repl σ f.subfields) := rfl
    rw [hstep, ih, replaceAddrs_append]
    simp [allAddrs]

theorem fieldset_replace_eq (σ : Store) (fs : Fieldset) (repl : String → String) :
    Fieldset.replace_subfield_data σ fs repl =
      (fs, replaceAddrs repl σ (allAddrs fs)) := by
  have h := fieldset_replace_foldl repl fs [] σ
  simp only [List.nil_append] at h
  exact h

/-- Filtering each field's subfields commutes with flattening: the
addresses reachable from `subfields_where` are the filtered addresses
of the original fieldset, in order. -/
theorem allAddrs_subfields_where (σ : Store) (fs : Fieldset) (p : Subfield → Bool) :
    allAddrs (Fieldset.subfields_where σ fs p) =
      (allAddrs fs).filter (fun a => p (readSub σ a)) := by
  induction fs with
  | nil => rfl
  | cons f fs ih =>
    simp only [Fieldset.subfields_where, List.map_cons, allAddrs, List.flatMap_cons,
      List.filter_append] at ih ⊢
    rw [← ih]
    rfl

/-! ## C3: filter-then-replace mutates exactly the matching subfields
of the original fieldset -/

/-- **C3.** For every store, fieldset `fs`, subfield tag `X` and
transform `t`, running
`fs.subfields_where(tag_equals, X).replace_subfield_data(t)` mutates,
in the store, exactly the subfields reachable from the original `fs`
whose tag equals `X`: each such subfield's data becomes `t(old data)`
(its tag untouched), and every other heap subfield - and hence every
other subfield of `fs` - is unchanged.  The fields of `fs` themselves
(tag, data, indicators, occurrence, subfield membership and order) are
Lean values that no store update can touch, so `fs` itself is unchanged
by construction.  Hypotheses: subfield dicts are not aliased within the
fieldset (each address occurs once - the data model's exclusive-
ownership invariant) and all addresses are live. -/
theorem subfields_where_replace_aliasing (σ : Store) (fs : Fieldset) (X : String)
    (t : String → String)
    (hnodup : (allAddrs fs).Nodup)
    (hrange : ∀ a ∈ allAddrs fs, a < σ.length) (a : Addr) :
    ((a ∈ allAddrs fs ∧ (readSub σ a).tag = X) →
      readSub (Fieldset.replace_subfield_data σ
          (Fieldset.subfields_where σ fs (tag_equals · X)) t).2 a =
        ⟨(readSub σ a).tag, t (readSub σ a).data⟩) ∧
    (¬(a ∈ allAddrs fs ∧ (readSub σ a).tag = X) →
      readSub (Fieldset.replace_subfield_data σ
          (Fieldset.subfields_where σ fs (tag_equals · X)) t).2 a = readSub σ a) := by
  rw [fieldset_replace_eq, allAddrs_subfields_where]
  set L := (allAddrs fs).filter (fun x => tag_equals (readSub σ x) X) with hL
  have hsub : List.Sublist L (allAddrs fs) := List.filter_sublist _
  have hnodupL : L.Nodup := hnodup.sublist hsub
  have hrangeL : ∀ x ∈ L, x < σ.length := fun x hx => hrange x (hsub.mem hx)
  have hmem : a ∈ L ↔ (a ∈ allAddrs fs ∧ (readSub σ a).tag = X) := by
    rw [hL, List.mem_filter]
    simp [tag_equals]
  have hspec := replaceAddrs_spec t L σ hnodupL hrangeL a
  constructor
  · intro hx
    rw [hspec, if_pos (hmem.mpr hx)]
  · intro hx
    rw [hspec, if_neg (fun hc => hx (hmem.mp hc))]

/-- Witness for C3: two heap subfields, one field; filtering on tag `h`
and appending `!` changes exactly the `h` subfield's data. -/
theorem subfields_where_replace_aliasing_witness :
    let σ : Store := [⟨"a", "title"⟩, ⟨"h", "medium"⟩]
    let fs : Fieldset := [⟨"245", none, [some '1', some '0'], [0, 1], 0⟩]
    let σ' := (Fieldset.replace_subfield_data σ
        (Fieldset.subfields_where σ fs (tag_equals · "h")) (fun s => s ++ "!")).2
    readSub σ' 1 = ⟨"h", "medium!"⟩ ∧ readSub σ' 0 = ⟨"a", "title"⟩ := by
  intro σ fs σ'
  constructor
  · exact (subfields_where_replace_aliasing σ fs "h" (fun s => s ++ "!")
      (by decide) (by decide) 1).1 (by decide)
  · exact (subfields_where_replace_aliasing σ fs "h" (fun s => s ++ "!")
      (by decide) (by decide) 0).2 (by decide)

/-! ## C4: replace_subfield_data return values

The claim states the operation returns the very collection object it
was invoked on at both levels.  That is true at the `Field` level
(`return self`, `fieldset.py` line 123) but false at the `Fieldset`
level: the source returns `type(self)(fields)` - a newly constructed
Fieldset object (its own docstring says "Returns a new Fieldset
object", `fieldset.py` line 273). -/

/-- **C4 counterexample.** At a concrete store, one-field fieldset
object (identity 0) and the identity transform, the Fieldset-level
`replace_subfield_data` returns an object whose identity is the fresh
allocation, not the object it was invoked on - refuting "returns the
same collection object it was invoked on, not a new one". -/
theorem fieldset_replace_returns_new_object :
    (FieldsetObj.replace_subfield_data [⟨"a", "x"⟩]
        ⟨0, [⟨"245", none, [some '1', some '0'], [0], 0⟩]⟩ (fun s => s) 1).1.oid ≠
      (FieldsetObj.mk 0 [⟨"245", none, [some '1', some '0'], [0], 0⟩]).oid := by
  decide

/-- **C4 amended.** `replace_subfield_data` mutates each retained
subfield's data in place via `transform(old data)`; at the `Field`
level it returns `self` - the very field it was invoked on - while at
the `Fieldset` level it returns a freshly allocated Fieldset object
whose contents are the same (mutated-in-place) Field objects, not the
collection object it was invoked on. -/
theorem replace_subfield_data_returns (σ : Store) (f : Field) (t : String → String)
    (hnodup : f.subfields.Nodup) (hrange : ∀ a ∈ f.subfields, a < σ.length) :
    (Field.replace_subfield_data σ f t).1 = f ∧
    (∀ a ∈ f.subfields,
      readSub (Field.replace_subfield_data σ f t).2 a =
        ⟨(readSub σ a).tag, t (readSub σ a).data⟩) ∧
    (∀ (oid freshId : Nat) (fs : Fieldset),
      (FieldsetObj.replace_subfield_data σ ⟨oid, fs⟩ t freshId).1 =
        ⟨freshId, fs⟩) := by
  refine ⟨rfl, ?_, ?_⟩
  · intro a ha
    have hspec := replaceAddrs_spec t f.subfields σ hnodup hrange a
    simpa [Field.replace_subfield_data, if_pos ha] using hspec
  · intro oid freshId fs
    simp [FieldsetObj.replace_subfield_data, fieldset_replace_eq]

/-- Witness for C4's amended theorem at a concrete store, field and
transform. -/
theorem replace_subfield_data_returns_witness :
    let σ : Store := [⟨"a", "x"⟩]
    let f : Field := ⟨"245", none, [some '1', some '0'], [0], 0⟩
    (Field.replace_subfield_data σ f (fun s => s ++ "!")).1 = f ∧
    readSub (Field.replace_subfield_data σ f (fun s => s ++ "!")).2 0 = ⟨"a", "x!"⟩ := by
  intro σ f
  have h := replace_subfield_data_returns σ f (fun s => s ++ "!") (by decide) (by decide)
  refine ⟨h.1, ?_⟩
  have := h.2.1 0 (by decide)
  simpa using this

/-! ## C6: fields_where / fields_where_not partition the fieldset -/

/-- **C6.** For every fieldset `fs` and predicate `pred`,
`fields_where(fs, pred)` and `fields_where_not(fs, pred)` partition
`fs`: every field of `fs` lands in exactly one of the two (union as a
set is the original, intersection is empty), and each result is a
sublist of `fs` - so it preserves the relative order of `fs` and
consists of the original field entries themselves (the source filters
by list comprehension over `self`, copying nothing). -/
theorem fields_where_partition (fs : Fieldset) (pred : Field → Bool) :
    (∀ f, (f ∈ fs.fields_where pred ∨ f ∈ fs.fields_where_not pred) ↔ f ∈ fs) ∧
    (∀ f, f ∈ fs.fields_where pred → f ∉ fs.fields_where_not pred) ∧
    List.Sublist (fs.fields_where pred) fs ∧
    List.Sublist (fs.fields_where_not pred) fs := by
  refine ⟨?_, ?_, List.filter_sublist fs, List.filter_sublist fs⟩
  · intro f
    constructor
    · rintro (h | h)
      · exact (List.mem_filter.mp h).1
      · exact (List.mem_filter.mp h).1
    · intro hf
      by_cases hp : pred f
      · exact Or.inl (List.mem_filter.mpr ⟨hf, hp⟩)
      · refine Or.inr (List.mem_filter.mpr ⟨hf, ?_⟩)
        simp [hp]
  · intro f h1 h2
    have hp1 := (List.mem_filter.mp h1).2
    have hp2 := (List.mem_filter.mp h2).2
    simp [hp1] at hp2

/-- Witness for C6: the partition property applied to a concrete
fieldset and the `tag_equals '500'` predicate. -/
theorem fields_where_partition_witness :
    let f1 : Field := ⟨"245", none, [some '1', some '0'], [], 0⟩
    let f2 : Field := ⟨"500", none, [some ' ', some ' '], [], 0⟩
    let fs : Fieldset := [f1, f2]
    f2 ∈ fs.fields_where (field_tag_equals · "500") ∧
    f2 ∉ fs.fields_where_not (field_tag_equals · "500") := by
  intro f1 f2 fs
  constructor
  · exact ((fields_where_partition fs (field_tag_equals · "500")).1 f2).mpr
      (by decide) |>.resolve_right (by decide)
  · exact (fields_where_partition fs (field_tag_equals · "500")).2.1 f2 (by decide)

/-! ## get_sorted (`fieldset.py` lines 296-313)

`get_sorted` sorts with `sorted(self, key=lambda x: [x.get(el, 0) for
el in elements], reverse=reverse)` after `elements = elements or
['tag']`.  The key is a Python list of heterogeneous values compared
with Python 2 semantics: `None` sorts below everything, numbers below
all other types, lists below strings; lists compare elementwise then by
length.  `x.get(el, 0)` yields the attribute when `el` is one of the
five field keys and the integer `0` otherwise.  A `subfields` value is
a list of subfield dict references; its exotic py2 dict comparison is
abstracted to comparison of the references.  The optional custom `key`
callable (default `None`) is outside every claim and not modelled. -/

/-- A value that can appear in a `get_sorted` sort key. -/
inductive PyOrdVal where
  | int (n : Int)
  | indList (l : List (Option Char))
  | addrList (l : List Addr)
  | str (s : String)
  deriving DecidableEq, Repr

/-- Python 2 cross-type rank: numbers sort below lists, lists below
strings. -/
def PyOrdVal.rank : PyOrdVal → Nat
  | .int _ => 0
  | .indList _ => 1
  | .addrList _ => 2
  | .str _ => 3

/-- Python 2 comparison of `None` vs a character: `None` is smaller
than everything. -/
def cmpOptChar : Option Char → Option Char → Ordering
  | none, none => .eq
  | none, some _ => .lt
  | some _, none => .gt
  | some a, some b => compare a b

/-- Python 2 list comparison: elementwise, then by length. -/
def cmpList {α : Type} (c : α → α → Ordering) : List α → List α → Ordering
  | [], [] => .eq
  | [], _ :: _ => .lt
  | _ :: _, [] => .gt
  | a :: as, b :: bs =>
    match c a b with
    | .eq => cmpList c as bs
    | o => o

/-- Python 2 comparison of two sort-key values. -/
def pyCmp : PyOrdVal → PyOrdVal → Ordering
  | .int a, .int b => compare a b
  | .indList a, .indList b => cmpList cmpOptChar a b
  | .addrList a, .addrList b => cmpList compare a b
  | .str a, .str b => compare a b
  | a, b => compare a.rank b.rank

/-- `x.get(el, 0)` on a field dict: the five structure members are the
dict's keys; any other name yields the default `0`. -/
def Field.get (f : Field) (el : String) : PyOrdVal :=
  if el = "tag" then .str f.tag
  else if el = "data" then
    match f.data with
    | some d => .str d
    | none => .int 0
  else if el = "indicators" then .indList f.indicators
  else if el = "subfields" then .addrList f.subfields
  else if el = "occurrence" then .int f.occurrence
  else .int 0

/-- Stable insertion: place `x` before the first element it is `le` to.
This is the unique stable sort, agreeing with Python's `sorted`. -/
def insertStable {α : Type} (le : α → α → Bool) (x : α) : List α → List α
  | [] => [x]
  | y :: ys => if le x y then x :: y :: ys else y :: insertStable le x ys

/-- Stable sort by the boolean relation `le`. -/
def stableSort {α : Type} (le : α → α → Bool) : List α → List α
  | [] => []
  | x :: xs => insertStable le x (stableSort le xs)

/-- The field-to-field "not greater" relation induced by a list of sort
key names (`reverse` flips it; ties keep original order either way,
matching CPython's stable `sorted`). -/
def fieldLe (es : List String) (reverse : Bool) (f g : Field) : Bool :=
  (cmpList pyCmp (es.map f.get) (es.map g.get)) !=
    (if reverse then Ordering.lt else Ordering.gt)

/-- `Fieldset.get_sorted` (`fieldset.py` lines 296-313), with the
default `key=None` path: sort by the tuple of named top-level elements,
defaulting to `['tag']` when the given list is falsy (empty). -/
def Fieldset.get_sorted (fs : Fieldset) (elements : List String) (reverse : Bool) :
    Fieldset :=
  let es := if elements.isEmpty then ["tag"] else elements
  stableSort (fieldLe es reverse) fs

theorem insertStable_congr {α : Type} (le le' : α → α → Bool)
    (h : ∀ x y, le x y = le' x y) (x : α) (l : List α) :
    insertStable le x l = insertStable le' x l := by
  induction l with
  | nil => rfl
  | cons y ys ih => simp [insertStable, h, ih]

theorem stableSort_congr {α : Type} (le le' : α → α → Bool)
    (h : ∀ x y, le x y = le' x y) (l : List α) :
    stableSort le l = stableSort le' l := by
  induction l with
  | nil => rfl
  | cons x xs ih => simp [stableSort, ih, insertStable_congr le le' h]

/-- Dropping a position at which both keys compare equal does not
change a py2 list comparison. -/
theorem cmpList_drop_eq {α : Type} (c : α → α → Ordering) (a b : α)
    (hab : c a b = .eq) (xs xs' ys ys' : List α) (hlen : xs.length = xs'.length) :
    cmpList c (xs ++ a :: ys) (xs' ++ b :: ys') = cmpList c (xs ++ ys) (xs' ++ ys') := by
  induction xs generalizing xs' with
  | nil =>
    cases xs' with
    | nil => simp [cmpList, hab]
    | cons z zs => simp at hlen
  | cons x xs ih =>
    cases xs' with
    | nil => simp at hlen
    | cons z zs =>
      simp only [List.length_cons, Nat.add_right_cancel_iff] at hlen
      simp only [List.cons_append, cmpList, List.append_eq]
      cases c x z <;> simp [ih zs hlen]

/-! ## C8: get_sorted and unknown sort key names -/

/-- **C8 counterexample.** The claim fails when the key list holds
*only* the unknown name: `get_sorted(fs, ['bogus'])` leaves the
fieldset in original order (every field compares equal on the unknown
key), while omitting the key gives the empty list, which `elements or
['tag']` silently replaces by the default tag sort - a different
ordering for any fieldset not already tag-sorted. -/
theorem get_sorted_unknown_key_counterexample :
    Fieldset.get_sorted
        [⟨"500", none, [some ' ', some ' '], [], 0⟩,
         ⟨"100", none, [some '1', none], [], 0⟩] ["bogus"] false =
      [⟨"500", none, [some ' ', some ' '], [], 0⟩,
       ⟨"100", none, [some '1', none], [], 0⟩] ∧
    Fieldset.get_sorted
        [⟨"500", none, [some ' ', some ' '], [], 0⟩,
         ⟨"100", none, [some '1', none], [], 0⟩] [] false =
      [⟨"100", none, [some '1', none], [], 0⟩,
       ⟨"500", none, [some ' ', some ' '], [], 0⟩] ∧
    ([⟨"500", none, [some ' ', some ' '], [], 0⟩,
      ⟨"100", none, [some '1', none], [], 0⟩] : Fieldset) ≠
      [⟨"100", none, [some '1', none], [], 0⟩,
       ⟨"500", none, [some ' ', some ' '], [], 0⟩] := by
  refine ⟨?_, ?_, by decide⟩ <;> rfl

/-- **C8 amended.** An unknown attribute name in a `get_sorted` key
list is tolerated and contributes no ordering weight (every field
compares equal on it, via the `x.get(el, 0)` default), so removing it
changes nothing *as long as at least one key remains*; a key list
reduced to empty instead falls back to the default `['tag']` sort
(`elements or ['tag']`), which can reorder the fieldset. -/
theorem get_sorted_unknown_key_dropped (fs : Fieldset) (es1 es2 : List String)
    (u : String) (reverse : Bool)
    (hu : ∀ f : Field, Field.get f u = .int 0)
    (hne : es1 ++ es2 ≠ []) :
    Fieldset.get_sorted fs (es1 ++ u :: es2) reverse =
      Fieldset.get_sorted fs (es1 ++ es2) reverse := by
  have h1 : (es1 ++ u :: es2).isEmpty = false := by
    cases es1 <;> simp
  have h2 : (es1 ++ es2).isEmpty = false := by
    rcases hc : es1 ++ es2 with _ | ⟨x, l⟩
    · exact absurd hc hne
    · rfl
  unfold Fieldset.get_sorted
  rw [h1, h2]
  simp only [Bool.false_eq_true, if_false]
  apply stableSort_congr
  intro f g
  unfold fieldLe
  have hkey : ∀ x : Field, (es1 ++ u :: es2).map x.get =
      es1.map x.get ++ Field.get x u :: es2.map x.get := by
    intro x
    simp
  rw [hkey f, hkey g, hu f, hu g,
    cmpList_drop_eq pyCmp (.int 0) (.int 0) rfl _ _ _ _ (by simp)]
  simp

/-- Witness for C8's amended theorem: dropping the unknown key
`'bogus'` from `['tag', 'bogus']` leaves the ordering unchanged on a
concrete two-field fieldset. -/
theorem get_sorted_unknown_key_dropped_witness :
    Fieldset.get_sorted
        [⟨"500", none, [some ' ', some ' '], [], 0⟩,
         ⟨"100", none, [some '1', none], [], 0⟩] ["tag", "bogus"] false =
      Fieldset.get_sorted
        [⟨"500", none, [some ' ', some ' '], [], 0⟩,
         ⟨"100", none, [some '1', none], [], 0⟩] ["tag"] false := by
  exact get_sorted_unknown_key_dropped _ ["tag"] [] "bogus" false
    (fun f => by simp [Field.get]) (by decide)

/-! ## CompoundMixin.generate_record_sets (`export/exporter.py` 519-524) -/

/-- One child exporter of a compound job, as `generate_record_sets`
sees it: its name and its `derive_records` rule
(`CompoundMixin.Child.derive_records`, default
`lambda rec: [rec]`, overridable per child). -/
structure Child (Rec R : Type) where
  name : String
  derive_records : Rec → List R

/-- `CompoundMixin.generate_record_sets`: starts one empty list per
child, extends each child's list with `derive_records(record)` for
every record of the parent batch in order, then deduplicates each
child's list with `list(set(...))` - per child only.  The children form
an `OrderedDict` keyed by name, so names are distinct and the
per-record/per-child loop is equivalent to this per-child map.
CPython's `set` iteration order is unspecified; the model uses
`List.dedup` and the theorem relies only on membership and
duplicate-freedom, which hold for any iteration order. -/
def generate_record_sets {Rec R : Type} [DecidableEq R]
    (children : List (Child Rec R)) (record_set : List Rec) :
    List (String × List R) :=
  children.map (fun c => (c.name, (record_set.flatMap c.derive_records).dedup))

/-- **C5.** For every parent batch, `generate_record_sets` gives each
child the deduplicated union of `derive_records` over every record of
the batch: the child's output set is duplicate-free and contains a
derived record iff some record of the parent batch derives it - in
particular deduplication never reaches across children, since each
child's set keeps *every* record that child derives, whether or not
another child also derives it. -/
theorem generate_record_sets_dedup_per_child {Rec R : Type} [DecidableEq R]
    (children : List (Child Rec R)) (record_set : List Rec)
    (c : Child Rec R) (hc : c ∈ children) :
    ∃ out : List R,
      (c.name, out) ∈ generate_record_sets children record_set ∧
      out.Nodup ∧
      ∀ x : R, x ∈ out ↔ ∃ r ∈ record_set, x ∈ c.derive_records r := by
  refine ⟨(record_set.flatMap c.derive_records).dedup, ?_, List.nodup_dedup _, ?_⟩
  · exact List.mem_map.mpr ⟨c, hc, rfl⟩
  · intro x
    rw [List.mem_dedup, List.mem_flatMap]

/-- Witness for C5: two children over a two-record batch; the first
child derives overlapping records which get deduplicated within that
child. -/
theorem generate_record_sets_dedup_per_child_witness :
    ∃ out : List Nat,
      ("items", out) ∈ generate_record_sets
          [⟨"items", fun n => [n, n + 1]⟩, ⟨"bibs", fun n => [n]⟩] [1, 2] ∧
      out.Nodup ∧
      ∀ x : Nat, x ∈ out ↔ ∃ r ∈ [1, 2], x ∈ [r, r + 1] := by
  exact generate_record_sets_dedup_per_child
    [⟨"items", fun n => [n, n + 1]⟩, ⟨"bibs", fun n => [n]⟩] [1, 2]
    ⟨"items", fun n => [n, n + 1]⟩ (List.mem_cons_self _ _)

/-! ## BaseNonSolrmarcBibsToSolr.export_records
(`blacklight/exporters.py` lines 235-259)

The per-record loop is:

    for rec in records:
        try:
            untbib = self.sierrabib_to_untbib.convert(rec)
        except Exception as e:
            msg = ...; self.log('Error', msg, log_label)   # no continue
        try:
            solr_dict = self.untbib_to_solr.convert(untbib)
        except Exception as e:
            msg = ...; self.log('Error', msg, log_label)
        else:
            solr_records.append(solr_dict)

The Python local `untbib` is threaded through the model as an
`Option`: `none` models the name being still unbound, in which case
the second `try`'s use of `untbib` raises `NameError`, caught by its
own `except Exception` clause.  When the bib conversion raises, the
first `except` logs and falls through without a `continue`, so the
second `try` re-converts the stale `untbib` left over from the most
recent successful iteration.  Logging, the final Solr `add` call and
the `vals` return are outside the claim; the model returns the
`solr_records` list the loop builds. -/

/-- The loop body of `BaseNonSolrmarcBibsToSolr.export_records`,
threading (records left, current `untbib` binding, `solr_records`). -/
def export_records_loop {Bib Unt Solr : Type}
    (toUnt : Bib → Except String Unt) (toSolr : Unt → Except String Solr) :
    List Bib → Option Unt → List Solr → List Solr
  | [], _, out => out
  | r :: rest, untbib0, out =>
    let untbib : Option Unt :=
      match toUnt r with
      | .ok u => some u
      | .error _ => untbib0
    match untbib with
    | none => export_records_loop toUnt toSolr rest none out
    | some u =>
      match toSolr u with
      | .ok s => export_records_loop toUnt toSolr rest (some u) (out ++ [s])
      | .error _ => export_records_loop toUnt toSolr rest (some u) out

/-- `export_records`, returning the built `solr_records` list. -/
def export_records {Bib Unt Solr : Type}
    (toUnt : Bib → Except String Unt) (toSolr : Unt → Except String Solr)
    (records : List Bib) : List Solr :=
  export_records_loop toUnt toSolr records none []

/-- **C1 (failing evaluation).**  A two-record batch where the second
record's bib-to-intermediate conversion raises: the claim says the
failing record is excluded and the output holds exactly the one sink
record of the successful record, `[101]`.  The code instead emits
`[101, 101]`: the first `except` falls through without `continue`, the
stale `untbib` of record 1 is converted again and appended a second
time.  (When the *first* record of a batch fails, the stale name is
unbound, the resulting `NameError` is caught, and the batch `[2, 1]`
yields `[101]` - conforming by accident.) -/
theorem export_records_stale_untbib_duplicates :
    export_records (fun b : Nat => if b = 2 then .error "boom" else .ok b)
        (fun u : Nat => .ok (u + 100)) [1, 2] = [101, 101] ∧
    export_records (fun b : Nat => if b = 2 then .error "boom" else .ok b)
        (fun u : Nat => .ok (u + 100)) [2, 1] = [101] ∧
    ([101, 101] : List Nat) ≠ [101] := by
  refine ⟨rfl, rfl, by decide⟩

/-! ## Bib extraction (`blacklight/sierrabibstractor.py`)

The ORM rows the extractor reads are modelled as plain structures on
the bib record. -/

/-- One row of `record_metadata.leaderfield_set`. -/
structure LeaderRow where
  record_status_code : String
  record_type_code : String
  bib_level_code : String
  control_type_code : String
  char_encoding_scheme_code : String
  encoding_level_code : String
  descriptive_cat_form_code : String
  multipart_level_code : String
  deriving DecidableEq, Repr

/-- One row of `record_metadata.varfield_set`. -/
structure VarfieldRow where
  marc_tag : String
  marc_ind1 : Option Char
  marc_ind2 : Option Char
  field_content : String
  occ_num : Nat
  deriving DecidableEq, Repr

/-- A Sierra bib record, reduced to the related rows the extractors
read. -/
structure BibRecord where
  leaderRows : List LeaderRow
  varfieldRows : List VarfieldRow
  deriving DecidableEq, Repr

/-- The leader data format string
`'#####{}{}{}{}{}22#####{}{}{}4500'.format(...)`. -/
def leader_data (ldr : LeaderRow) : String :=
  "#####" ++ ldr.record_status_code ++ ldr.record_type_code ++ ldr.bib_level_code ++
    ldr.control_type_code ++ ldr.char_encoding_scheme_code ++ "22#####" ++
    ldr.encoding_level_code ++ ldr.descriptive_cat_form_code ++
    ldr.multipart_level_code ++ "4500"

/-- `extract_leader` (`sierrabibstractor.py` lines 9-32).  The code
takes `leaderfield_set.all()[0]` inside a `try` whose `except
IndexError` clause is just `pass`; when there is no leader row the
local name `ldr` is left unbound, so the `format` call that follows
the `try` block raises `NameError` (despite the comment announcing the
LDR would simply be skipped).  With a leader row present, one field
with tag `LDR`, the formatted data, indicators `[None, None]` and no
subfields is returned. -/
def extract_leader (bib : BibRecord) : Except PyErr Fieldset :=
  match bib.leaderRows with
  | [] => .error .nameError
  | ldr :: _ => .ok [⟨"LDR", some (leader_data ldr), [none, none], [], 0⟩]

/-- **C2 (failing evaluation).**  On a bib with no leader row,
`extract_leader` raises `NameError` - it neither emits a best-effort
Leader field nor returns at all - while on any bib with a leader row it
returns the single `LDR` field the claim describes. -/
theorem extract_leader_missing_leader_raises :
    extract_leader ⟨[], []⟩ = .error PyErr.nameError ∧
    ∀ (ldr : LeaderRow) (rest : List LeaderRow) (vRows : List VarfieldRow),
      extract_leader ⟨ldr :: rest, vRows⟩ =
        .ok [⟨"LDR", some (leader_data ldr), [none, none], [], 0⟩] :=
  ⟨rfl, fun _ _ _ => rfl⟩

/-- `data.split('|')` on the character list: split on every occurrence
of the delimiter, keeping empty segments, like Python's `str.split`
with an explicit separator. -/
def splitPipeChars : List Char → List (List Char)
  | [] => [[]]
  | c :: cs =>
    let r := splitPipeChars cs
    if c = '|' then [] :: r
    else
      match r with
      | [] => [[c]]
      | h :: t => (c :: h) :: t

/-- `int(tag)`: accepts a nonempty all-digit string, decimal value;
anything else raises `ValueError`.  (Python also accepts surrounding
whitespace and a sign; MARC tags are plain digit strings, so that
corner is out of scope.) -/
def parseTagNum (s : String) : Option Nat :=
  let cs := s.toList
  if cs ≠ [] ∧ cs.all (fun c => c.isDigit) then
    some (cs.foldl (fun acc c => acc * 10 + (c.toNat - 48)) 0)
  else none

/-- `_split_field_data_into_subfields` (`sierrabibstractor.py` lines
52-62): split the stored content on `|`; each segment after the first
becomes a subfield whose tag is the segment's first character
(`p[0]` - an `IndexError` if a segment is empty) and whose data is the
rest.  Zero delimiter occurrences yield zero subfields. -/
def split_field_data_into_subfields (data : String) : Except PyErr (List Subfield) :=
  let parts := splitPipeChars data.toList
  if parts.length > 1 then
    (parts.drop 1).mapM (fun p =>
      match p with
      | [] => .error PyErr.indexError
      | c :: rest => .ok (⟨String.mk [c], String.mk rest⟩ : Subfield))
  else .ok []

/-- Allocate a list of fresh subfield dicts at the end of the store,
returning the new store and their addresses in order. -/
def allocSubfields (σ : Store) (subs : List Subfield) : Store × List Addr :=
  (σ ++ subs, (List.range subs.length).map (· + σ.length))

/-- The row loop of `extract_varfields` (`sierrabibstractor.py` lines
65-85).  For each varfield row: `int(tag)` (a `ValueError` on a
non-numeric tag); tag ≥ 10 takes the row's indicators and the parsed
subfields, tag < 10 takes `[None, None]` and no subfields.  The row's
`field_content` is read into the local `data` but never stored on the
field dict, which is built from exactly `tag`, `indicators`,
`subfields` and `occurrence` - there is never a `'data'` key
(`data = none` in the model). -/
def extract_varfields_go (rows : List VarfieldRow) (σ : Store) :
    Except PyErr (Fieldset × Store) :=
  match rows with
  | [] => .ok ([], σ)
  | vf :: rest =>
    match parseTagNum vf.marc_tag with
    | none => .error .valueError
    | some tagNum =>
      match (if tagNum ≥ 10 then split_field_data_into_subfields vf.field_content
             else .ok []) with
      | .error e => .error e
      | .ok subs =>
        let inds : List (Option Char) :=
          if tagNum ≥ 10 then [vf.marc_ind1, vf.marc_ind2] else [none, none]
        let alloc := allocSubfields σ subs
        match extract_varfields_go rest alloc.1 with
        | .error e => .error e
        | .ok (fields, σ'') =>
          .ok (⟨vf.marc_tag, none, inds, alloc.2, vf.occ_num⟩ :: fields, σ'')

/-- `extract_varfields` over a bib record, threading the subfield
store. -/
def extract_varfields (bib : BibRecord) (σ : Store) : Except PyErr (Fieldset × Store) :=
  extract_varfields_go bib.varfieldRows σ

theorem extract_varfields_go_no_data (rows : List VarfieldRow) (σ : Store)
    (fs : Fieldset) (σ' : Store) (h : extract_varfields_go rows σ = .ok (fs, σ'))
    (f : Field) (hf : f ∈ fs) : f.data = none := by
  induction rows generalizing σ fs σ' with
  | nil =>
    simp only [extract_varfields_go] at h
    cases h
    simp at hf
  | cons vf rest ih =>
    simp only [extract_varfields_go] at h
    split at h
    · cases h
    · split at h
      · cases h
      · split at h
        · cases h
        · rename_i fields σ'' heq
          cases h
          rcases List.mem_cons.mp hf with hfe | hfm
          · rw [hfe]
          · exact ih _ _ _ heq hfm

/-- **C10.** Every field produced by variable-field extraction carries
exactly the keys `tag`, `indicators`, `subfields`, `occurrence` and
never a top-level `data` key (`f.data = none`) - including control-like
fields with numeric tag < 10, whose raw content is therefore dropped -
so applying a data-based predicate to any varfield-extracted field
raises `KeyError`, for every comparison string, regex and regex
engine. -/
theorem extract_varfields_fields_raise_keyerror (bib : BibRecord) (σ σ' : Store)
    (fs : Fieldset) (h : extract_varfields bib σ = .ok (fs, σ'))
    (f : Field) (hf : f ∈ fs) :
    f.data = none ∧
    (∀ s : String, field_data_equals f s = .error PyErr.keyError) ∧
    (∀ (search : String → String → Bool) (regex : String),
      field_data_matches search f regex = .error PyErr.keyError) := by
  have hnone : f.data = none := extract_varfields_go_no_data bib.varfieldRows σ fs σ' h f hf
  refine ⟨hnone, ?_, ?_⟩
  · intro s
    simp [field_data_equals, hnone]
  · intro search regex
    simp [field_data_matches, hnone]

/-- Witness for C10: a concrete extraction with one variable field
(tag 245, two subfields) and one control-like varfield (tag 008, whose
content is dropped); `data_equals` raises `KeyError` on both. -/
theorem extract_varfields_fields_raise_keyerror_witness :
    Field.data ⟨"008", none, [none, none], [], 0⟩ = none ∧
    field_data_equals ⟨"008", none, [none, none], [], 0⟩ "control data" =
      .error PyErr.keyError := by
  have h : extract_varfields
      ⟨[], [⟨"245", some '1', some '0', "|aTitle|bSub", 0⟩,
            ⟨"008", none, none, "control data", 0⟩]⟩ [] =
      .ok ([⟨"245", none, [some '1', some '0'], [0, 1], 0⟩,
            ⟨"008", none, [none, none], [], 0⟩],
           [⟨"a", "Title"⟩, ⟨"b", "Sub"⟩]) := by rfl
  have hall := extract_varfields_fields_raise_keyerror _ _ _ _ h
    ⟨"008", none, [none, none], [], 0⟩ (by decide)
  exact ⟨hall.1, hall.2.1 "control data"⟩

/-! ## Person-author converters (`blacklight/field_converters.py`) -/

/-- The `out_data` dict of `sierrabib_to_person_author`
(`field_converters.py` lines 32-48); the `attribution_qualifer`
spelling reproduces the source. -/
structure PersonAuthor where
  forename : String
  surname : String
  family_name : String
  fuller_form_of_name : String
  titles : List String
  start_date : String
  start_date_qualifier : String
  end_date : String
  end_date_qualifier : String
  date_type : String
  full_dates : String
  relation_to_work : String
  attribution_qualifer : String
  affiliation : String
  authorized_heading : String
  deriving DecidableEq, Repr

/-- The initial `out_data` values: empty strings and an empty title
list. -/
def default_person_author : PersonAuthor :=
  ⟨"", "", "", "", [], "", "", "", "", "", "", "", "", "", ""⟩

/-- Modelled from the spec: the `blacklight.parsers` module is not
under `src/` (only its tests are).  Per §4.3 a converter "may be given
a fixed, named set of parser callables at construction time (a
read-only namespace passed alongside the input)"; the bundle is
therefore an explicit parameter and every theorem below holds for an
arbitrary bundle.  `person_name`/`person_dates` return dicts that
`out_data.update(...)` folds into the output record, modelled as
record-to-record updates; the formatters return strings. -/
structure Parsers where
  person_name : Field → PersonAuthor → PersonAuthor
  person_dates : Field → PersonAuthor → PersonAuthor
  person_titles : Field → List String
  untbib_person_get_name_straight : PersonAuthor → String
  untbib_person_get_name_inverted : PersonAuthor → String
  untbib_person_get_fullname : PersonAuthor → String

/-- The extracted-bib dict `{'fixedfields': ..., 'marcfields': ...}`
produced by `sierrabibstractor.extract`; fixed fields reduced to a flat
string map (their values are irrelevant to the converters treated
here). -/
structure ExtractedBib where
  fixedfields : List (String × String)
  marcfields : Fieldset

/-- The stage-1 converter input dict `{'bib': extracted_bib}`. -/
structure BibInData where
  bib : ExtractedBib

/-- The intermediate ("untbib") record, reduced to the field the
author converters read. -/
structure Untbib where
  person_author : Option PersonAuthor

/-- `sierrabib_to_person_author` (`field_converters.py` lines 27-56):
take the first field with tag 100 from the extracted fieldset; the
`IndexError` of `[0]` on an empty filter result is caught and `None`
returned; otherwise the parser results are folded into the default
`out_data` and `titles` set from `person_titles`. -/
def sierrabib_to_person_author (P : Parsers) (in_data : BibInData) :
    Option PersonAuthor :=
  match Fieldset.fields_where in_data.bib.marcfields (field_tag_equals · "100") with
  | [] => none
  | paf :: _ =>
    let out := P.person_name paf default_person_author
    let out := P.person_dates paf out
    some { out with titles := P.person_titles paf }

/-- `untbib_to_person_author_search_fullname_forms`
(`field_converters.py` lines 102-112). -/
def untbib_to_person_author_search_fullname_forms (P : Parsers) (untbib : Untbib) :
    List String :=
  match untbib.person_author with
  | none => []
  | some author =>
    [P.untbib_person_get_name_straight author,
     P.untbib_person_get_name_inverted author,
     P.untbib_person_get_fullname author]

/-- `untbib_to_person_author_search_bestname` (`field_converters.py`
lines 115-126): Python truthiness of `author['surname']` is
non-emptiness; the fallback concatenates forename and the joined
titles with no separator (`'{}{}'.format`). -/
def untbib_to_person_author_search_bestname (untbib : Untbib) : String :=
  match untbib.person_author with
  | none => ""
  | some author =>
    if author.surname ≠ "" then author.surname
    else author.forename ++ String.intercalate " " author.titles

/-- `untbib_to_person_author_display` (`field_converters.py` lines
129-137). -/
def untbib_to_person_author_display (P : Parsers) (untbib : Untbib) : String :=
  match untbib.person_author with
  | none => ""
  | some author => P.untbib_person_get_fullname author

/-- `untbib_to_person_author_facet` (`field_converters.py` lines
140-149). -/
def untbib_to_person_author_facet (P : Parsers) (untbib : Untbib) : String :=
  match untbib.person_author with
  | none => ""
  | some author =>
    let name := P.untbib_person_get_name_inverted author
    if author.full_dates ≠ "" then name ++ " (" ++ author.full_dates ++ ")"
    else name

/-! ## C9: missing MARC 100 field degrades to null / empty defaults -/

/-- **C9.** For every parser bundle and extracted bib whose fieldset has
no field of tag 100, `sierrabib_to_person_author` returns `None`
(the `IndexError` of `[0]` is the only raise site and it is caught);
and for every intermediate record with `person_author = None`, the four
author-derived sink converters return their documented empty defaults -
`[]` for the search fullname forms and `''` for best name, display and
facet - without touching any parser. -/
theorem person_author_none_defaults (P : Parsers) (in_data : BibInData)
    (h100 : ∀ f ∈ in_data.bib.marcfields, f.tag ≠ "100")
    (u : Untbib) (hu : u.person_author = none) :
    sierrabib_to_person_author P in_data = none ∧
    untbib_to_person_author_search_fullname_forms P u = [] ∧
    untbib_to_person_author_search_bestname u = "" ∧
    untbib_to_person_author_display P u = "" ∧
    untbib_to_person_author_facet P u = "" := by
  have hfilter :
      Fieldset.fields_where in_data.bib.marcfields (field_tag_equals · "100") = [] := by
    refine List.filter_eq_nil_iff.mpr ?_
    intro f hf
    simp [field_tag_equals]
    exact h100 f hf
  refine ⟨?_, ?_, ?_, ?_, ?_⟩
  · simp [sierrabib_to_person_author, hfilter]
  · simp [untbib_to_person_author_search_fullname_forms, hu]
  · simp [untbib_to_person_author_search_bestname, hu]
  · simp [untbib_to_person_author_display, hu]
  · simp [untbib_to_person_author_facet, hu]

/-- Witness for C9: a concrete parser bundle, a bib with a single 245
field (no 100), and an intermediate record with a null person_author. -/
theorem person_author_none_defaults_witness :
    sierrabib_to_person_author
        ⟨fun _ a => a, fun _ a => a, fun _ => [], fun _ => "", fun _ => "",
         fun _ => ""⟩
        ⟨⟨[("record_id", "b1")], [⟨"245", none, [some '1', some '0'], [], 0⟩]⟩⟩ =
      none ∧
    untbib_to_person_author_search_bestname ⟨none⟩ = "" := by
  have h := person_author_none_defaults
    ⟨fun _ a => a, fun _ a => a, fun _ => [], fun _ => "", fun _ => "", fun _ => ""⟩
    ⟨⟨[("record_id", "b1")], [⟨"245", none, [some '1', some '0'], [], 0⟩]⟩⟩
    (by decide) ⟨none⟩ rfl
  exact ⟨h.1, h.2.2.1⟩

/-! ## Exporter.compile_vals (`export/exporter.py` lines 300-318)

`compile_vals` starts from `vals = {}` and, for each item of `results`
that is a dict, sets `vals = dict_merge(vals, item)`; it returns
`vals or None` (the empty dict is falsy).  The structured values the
per-chunk results hold are modelled by the mutual `PyVal` family. -/

mutual
/-- A Python value as `compile_vals` and `dict_merge` see it. -/
inductive PyVal where
  | pynone
  | str (s : String)
  | int (n : Int)
  | list (l : PyList)
  | dict (d : PyDict)
  deriving DecidableEq

/-- A Python list of values. -/
inductive PyList where
  | nil
  | cons (hd : PyVal) (tl : PyList)
  deriving DecidableEq

/-- A Python dict from string keys to values, in insertion order; a
real dict never repeats a key. -/
inductive PyDict where
  | nil
  | cons (k : String) (v : PyVal) (tl : PyDict)
  deriving DecidableEq
end

/-- List concatenation on `PyList`. -/
def PyList.append : PyList → PyList → PyList
  | .nil, b => b
  | .cons h t, b => .cons h (t.append b)

/-- Entry concatenation on `PyDict`. -/
def PyDict.append : PyDict → PyDict → PyDict
  | .nil, b => b
  | .cons k v tl, b => .cons k v (tl.append b)

/-- The keys of a dict, in order. -/
def PyDict.keys : PyDict → List String
  | .nil => []
  | .cons k _ tl => k :: tl.keys

mutual
/-- Modelled from the spec: `utils.dict_merge` is not under `src/`
(only its caller `Exporter.compile_vals` is).  Per the spec, the merge
"recursively merg[es] mappings and concatenat[es] list-valued fields
with the same key" ("Arrays are combined, and nested dicts are
recursively merged"); a value of any other shape is overwritten by the
right operand's value. -/
def pymerge : PyVal → PyVal → PyVal
  | .dict a, .dict b => .dict (dmerge a b)
  | .list a, .list b => .list (a.append b)
  | _, b => b
termination_by x y => (sizeOf y, sizeOf x)

/-- Merge dict `b` into dict `a`, processing `b`'s entries in order. -/
def dmerge : PyDict → PyDict → PyDict
  | a, .nil => a
  | a, .cons k v tl => dmerge (dinsert a k v) tl
termination_by a b => (sizeOf b, sizeOf a)

/-- Set key `k` in dict `a`: combine with an existing entry's value via
`pymerge`, else append a new entry. -/
def dinsert : PyDict → String → PyVal → PyDict
  | .nil, k, v => .cons k v .nil
  | .cons k' v' tl, k, v =>
    if k' = k then .cons k (pymerge v' v) tl
    else .cons k' v' (dinsert tl k v)
termination_by a _ v => (sizeOf v, sizeOf a)
end

/-- `isinstance(item, dict)`. -/
def isDict : PyVal → Bool
  | .dict _ => true
  | _ => false

/-- One iteration of the `compile_vals` loop:
`if isinstance(item, dict): vals = dict_merge(vals, item)`. -/
def compileStep (vals item : PyVal) : PyVal :=
  if isDict item then pymerge vals item else vals

/-- `vals or None`: the empty dict is falsy. -/
def py_or_none (v : PyVal) : PyVal :=
  if v = .dict .nil then .pynone else v

/-- `Exporter.compile_vals` (`export/exporter.py` lines 300-318):
start from `vals = {}`, fold `dict_merge` over the dict-shaped
results, return `vals or None`. -/
def compile_vals (results : List PyVal) : PyVal :=
  py_or_none (results.foldl compileStep (.dict .nil))

theorem pymerge_dict (a b : PyDict) :
    pymerge (.dict a) (.dict b) = .dict (dmerge a b) := by
  simp [pymerge]

theorem pymerge_list (a b : PyList) :
    pymerge (.list a) (.list b) = .list (a.append b) := by
  simp [pymerge]

theorem dmerge_nil_right (a : PyDict) : dmerge a .nil = a := by
  simp [dmerge]

theorem dmerge_cons (a : PyDict) (k : String) (v : PyVal) (tl : PyDict) :
    dmerge a (.cons k v tl) = dmerge (dinsert a k v) tl := by
  simp [dmerge]

theorem keys_dinsert : ∀ (a : PyDict) (k : String) (v : PyVal),
    (dinsert a k v).keys = if k ∈ a.keys then a.keys else a.keys ++ [k]
  | .nil, k, v => by simp [dinsert, PyDict.keys]
  | .cons k' v' tl, k, v => by
    by_cases hk : k' = k
    · subst hk
      simp [dinsert, PyDict.keys]
    · rw [dinsert]
      rw [if_neg hk]
      simp only [PyDict.keys, keys_dinsert tl k v]
      have hk2 : ¬(k = k') := fun hh => hk hh.symm
      by_cases h : k ∈ tl.keys
      · simp [PyDict.keys, h, hk2]
      · simp [PyDict.keys, h, hk2]

theorem nodupKeys_dinsert (a : PyDict) (k : String) (v : PyVal)
    (h : a.keys.Nodup) : (dinsert a k v).keys.Nodup := by
  rw [keys_dinsert]
  by_cases hk : k ∈ a.keys
  · simp [hk, h]
  · simp only [hk, if_false]
    simp [List.nodup_append, h, hk]

theorem nodupKeys_dmerge : ∀ (b a : PyDict), a.keys.Nodup →
    (dmerge a b).keys.Nodup
  | .nil, a, h => by rw [dmerge_nil_right]; exact h
  | .cons k v tl, a, h => by
    rw [dmerge_cons]
    exact nodupKeys_dmerge tl (dinsert a k v) (nodupKeys_dinsert a k v h)

theorem pydict_append_nil : ∀ a : PyDict, a.append .nil = a
  | .nil => rfl
  | .cons k v tl => by simp [PyDict.append, pydict_append_nil tl]

theorem pydict_append_assoc : ∀ a b c : PyDict,
    (a.append b).append c = a.append (b.append c)
  | .nil, _, _ => rfl
  | .cons k v tl, b, c => by simp [PyDict.append, pydict_append_assoc tl b c]

theorem pydict_keys_append : ∀ a b : PyDict,
    (a.append b).keys = a.keys ++ b.keys
  | .nil, _ => rfl
  | .cons k v tl, b => by simp [PyDict.append, PyDict.keys, pydict_keys_append tl b]

theorem dinsert_absent : ∀ (a : PyDict) (k : String) (v : PyVal), k ∉ a.keys →
    dinsert a k v = a.append (.cons k v .nil)
  | .nil, k, v, _ => by simp [dinsert, PyDict.append]
  | .cons k' v' tl, k, v, h => by
    have hk : k' ≠ k := by
      intro he
      exact h (by simp [PyDict.keys, he])
    have htl : k ∉ tl.keys := by
      intro hm
      exact h (by simp [PyDict.keys, hm])
    rw [dinsert]
    rw [if_neg hk]
    simp [PyDict.append, dinsert_absent tl k v htl]

theorem dmerge_disjoint : ∀ (b a : PyDict), b.keys.Nodup →
    (∀ k ∈ b.keys, k ∉ a.keys) → dmerge a b = a.append b
  | .nil, a, _, _ => by rw [dmerge_nil_right, pydict_append_nil]
  | .cons k v tl, a, hb, hdisj => by
    have hk : k ∉ a.keys := hdisj k (by simp [PyDict.keys])
    rw [dmerge_cons, dinsert_absent a k v hk]
    have hcons := List.nodup_cons.mp (show (k :: tl.keys).Nodup from hb)
    have hdisj' : ∀ k' ∈ tl.keys, k' ∉ (a.append (.cons k v .nil)).keys := by
      intro k' hk' hmem
      rw [pydict_keys_append] at hmem
      rcases List.mem_append.mp hmem with hm | hm
      · exact hdisj k' (by simp [PyDict.keys, hk']) hm
      · simp [PyDict.keys] at hm
        exact hcons.1 (hm ▸ hk')
    rw [dmerge_disjoint tl (a.append (.cons k v .nil)) hcons.2 hdisj',
      pydict_append_assoc]
    rfl

theorem dmerge_nil_left (b : PyDict) (hb : b.keys.Nodup) :
    dmerge .nil b = b := by
  rw [dmerge_disjoint b .nil hb (fun k _ => by simp [PyDict.keys])]
  rfl

/-- One `compile_vals` fold step keeps the accumulator a dict with
duplicate-free keys. -/
theorem compileStep_preserves_dict (d : PyDict) (hd : d.keys.Nodup) (item : PyVal) :
    ∃ d' : PyDict, compileStep (.dict d) item = .dict d' ∧ d'.keys.Nodup := by
  cases item with
  | dict b =>
    refine ⟨dmerge d b, ?_, nodupKeys_dmerge b d hd⟩
    rw [compileStep]
    simp [isDict, pymerge_dict]
  | pynone => exact ⟨d, rfl, hd⟩
  | str s => exact ⟨d, rfl, hd⟩
  | int n => exact ⟨d, rfl, hd⟩
  | list l => exact ⟨d, rfl, hd⟩

/-! ## C7: compile_vals merges chunked results associatively -/

/-- **C7.** For all per-chunk result dictionaries `A`, `B`, `C`,
`compile_vals [A, B, C]` equals
`compile_vals [compile_vals [A, B], C]` - merging a batch in one call
agrees with merging an already-merged prefix with the rest (the inner
call's `vals or None` may hand the outer call `None`, which its
`isinstance(item, dict)` guard skips); and the merge combines two
dicts by recursively merging, concatenates two lists preserving order,
and combines the two values stored under one same key via that same
recursive merge. -/
theorem compile_vals_associative (A B C : PyVal)
    (_hA : isDict A = true) (_hB : isDict B = true) (_hC : isDict C = true) :
    (compile_vals [A, B, C] = compile_vals [compile_vals [A, B], C]) ∧
    (∀ da db : PyDict, pymerge (.dict da) (.dict db) = .dict (dmerge da db)) ∧
    (∀ la lb : PyList, pymerge (.list la) (.list lb) = .list (la.append lb)) ∧
    (∀ (k : String) (va vb : PyVal) (t : PyDict),
      dmerge (.cons k va t) (.cons k vb .nil) = .cons k (pymerge va vb) t) := by
  refine ⟨?_, pymerge_dict, pymerge_list, ?_⟩
  case refine_2 =>
    intro k va vb t
    rw [dmerge_cons, dmerge_nil_right, dinsert]
    simp
  obtain ⟨x1, hx1, hx1n⟩ := compileStep_preserves_dict .nil (by simp [PyDict.keys]) A
  obtain ⟨x2, hx2, hx2n⟩ := compileStep_preserves_dict x1 hx1n B
  have hfold2 : List.foldl compileStep (.dict .nil) [A, B] = .dict x2 := by
    simp only [List.foldl_cons, List.foldl_nil, hx1, hx2]
  have hfold3 : List.foldl compileStep (.dict .nil) [A, B, C] =
      compileStep (.dict x2) C := by
    simp only [List.foldl_cons, List.foldl_nil, hx1, hx2]
  show py_or_none (List.foldl compileStep (.dict .nil) [A, B, C]) =
    py_or_none (List.foldl compileStep (.dict .nil)
      [py_or_none (List.foldl compileStep (.dict .nil) [A, B]), C])
  rw [hfold2, hfold3]
  by_cases hnil : x2 = PyDict.nil
  · subst hnil
    have hinner : py_or_none (.dict .nil) = .pynone := by
      simp [py_or_none]
    rw [hinner]
    have houter : List.foldl compileStep (.dict .nil) [.pynone, C] =
        compileStep (.dict .nil) C := by
      simp only [List.foldl_cons, List.foldl_nil]
      rfl
    rw [houter]
  · have hinner : py_or_none (.dict x2) = .dict x2 := by
      rw [py_or_none, if_neg (fun h => hnil (PyVal.dict.inj h))]
    rw [hinner]
    have houter : List.foldl compileStep (.dict .nil) [.dict x2, C] =
        compileStep (compileStep (.dict .nil) (.dict x2)) C := by
      simp only [List.foldl_cons, List.foldl_nil]
    have habsorb : compileStep (.dict .nil) (.dict x2) = .dict x2 := by
      rw [compileStep]
      simp only [isDict, if_pos, pymerge_dict]
      rw [dmerge_nil_left x2 hx2n]
    rw [houter, habsorb]

/-- Witness for C7: three concrete one-chunk result dicts with a shared
list-valued key and a shared scalar key. -/
theorem compile_vals_associative_witness :
    compile_vals
        [.dict (.cons "ids" (.list (.cons (.int 1) .nil)) (.cons "n" (.int 1) .nil)),
         .dict (.cons "ids" (.list (.cons (.int 2) .nil)) .nil),
         .dict (.cons "n" (.int 3) .nil)] =
      compile_vals
        [compile_vals
          [.dict (.cons "ids" (.list (.cons (.int 1) .nil)) (.cons "n" (.int 1) .nil)),
           .dict (.cons "ids" (.list (.cons (.int 2) .nil)) .nil)],
         .dict (.cons "n" (.int 3) .nil)] :=
  (compile_vals_associative
    (.dict (.cons "ids" (.list (.cons (.int 1) .nil)) (.cons "n" (.int 1) .nil)))
    (.dict (.cons "ids" (.list (.cons (.int 2) .nil)) .nil))
    (.dict (.cons "n" (.int 3) .nil)) rfl rfl rfl).1

end CatalogApi
